import Mathlib

/-!
Verification of the ideas-curses idea tracker (`src/ideas.py`).

The SQLite table `ideas` is embedded as a `List Idea` (one element per row,
in rowid order); each store-mutating Python function becomes a pure function
on that list.  The curses event loop (`main`) is embedded as a state machine:
`AppState` carries the loop's mutable variables and `dispatch` performs the
key-handling branch of one loop iteration, with user text input (dialog
keystrokes, the ordering prompt answer) supplied as event parameters.
-/

/-- One row of the `ideas` table:
`(id, title, pos, created_date, notes, archived)`. -/
structure Idea where
  id : Nat
  title : String
  pos : Nat
  created_date : String
  notes : String
  archived : Bool
deriving DecidableEq, Repr

instance : Inhabited Idea := ⟨⟨0, "", 0, "", "", false⟩⟩

/-- Python `add_idea`: `SELECT MAX(pos) FROM ideas` is `NULL` on an empty table
(`new_pos = 0`), otherwise `max_pos + 1`; the new row is appended with
`archived = 0` and `created_date = today`.  The fresh `AUTOINCREMENT` id is a
parameter. -/
def add_idea (db : List Idea) (title notes : String) (today : String)
    (new_id : Nat) : List Idea :=
  let max_pos : Option Nat := (db.map Idea.pos).maximum
  let new_pos : Nat :=
    match max_pos with
    | none => 0
    | some m => m + 1
  db ++ [⟨new_id, title, new_pos, today, notes, false⟩]

/-- Python `delete_idea`: `DELETE FROM ideas WHERE id = ?`. -/
def delete_idea (db : List Idea) (idea_id : Nat) : List Idea :=
  db.filter (fun r => r.id ≠ idea_id)

/-- The comparison used by `ORDER BY pos`. -/
def posLe (a b : Idea) : Prop := a.pos ≤ b.pos

instance : DecidableRel posLe := fun a b => inferInstanceAs (Decidable (a.pos ≤ b.pos))

instance : IsTotal Idea posLe := ⟨fun a b => Nat.le_total a.pos b.pos⟩

instance : IsTrans Idea posLe := ⟨fun _ _ _ h h' => Nat.le_trans h h'⟩

/-- The comparison used by `ORDER BY created_date` (ISO-8601 strings compare
lexicographically). -/
def dateLe (a b : Idea) : Prop := a.created_date ≤ b.created_date

instance : DecidableRel dateLe :=
  fun a b => inferInstanceAs (Decidable (a.created_date ≤ b.created_date))

instance : IsTotal Idea dateLe := ⟨fun a b => le_total a.created_date b.created_date⟩

instance : IsTrans Idea dateLe := ⟨fun _ _ _ h h' => le_trans h h'⟩

/-- Python `get_ideas`: full scan ordered by `pos` when `order_by = 'pos'`, by
`created_date` when `order_by = 'created_date'`, and by `pos` otherwise. -/
def get_ideas (db : List Idea) (order_by : String) : List Idea :=
  if order_by = "pos" then List.insertionSort posLe db
  else if order_by = "created_date" then List.insertionSort dateLe db
  else List.insertionSort posLe db

/-- One `UPDATE ideas SET pos = ? WHERE id = ?` statement. -/
def setPos (db : List Idea) (new_pos : Nat) (idea_id : Nat) : List Idea :=
  db.map (fun r => if r.id = idea_id then { r with pos := new_pos } else r)

/-- The `for new_pos, idea in enumerate(ideas_order)` loop of
`update_idea_order`, started at index `k`. -/
def updateOrderGo (db : List Idea) (k : Nat) : List Idea → List Idea
  | [] => db
  | idea :: rest => updateOrderGo (setPos db k idea.id) (k + 1) rest

/-- Python `update_idea_order`: writes `pos = index` for every `(index, idea)` of the
enumerated order list. -/
def update_idea_order (db : List Idea) (ideas_order : List Idea) : List Idea :=
  updateOrderGo db 0 ideas_order

/-- Python `toggle_idea_archived`: `new_archived = 0 if current_archived else 1`,
then `UPDATE ideas SET archived = ? WHERE id = ?`. -/
def toggle_idea_archived (db : List Idea) (idea_id : Nat)
    (current_archived : Bool) : List Idea :=
  db.map (fun r => if r.id = idea_id then { r with archived := !current_archived } else r)

/-- Python `update_idea_info`: `UPDATE ideas SET title = ?, notes = ? WHERE id = ?`. -/
def update_idea_info (db : List Idea) (idea_id : Nat) (title notes : String) :
    List Idea :=
  db.map (fun r => if r.id = idea_id then { r with title := title, notes := notes } else r)

/-- Python's `str.strip()` on a character list: drop whitespace from both
ends. -/
def stripChars (l : List Char) : List Char :=
  ((l.dropWhile Char.isWhitespace).reverse.dropWhile Char.isWhitespace).reverse

/-- Python's `str.strip()` (restricted to ASCII whitespace). -/
def pyStrip (s : String) : String := ⟨stripChars s.data⟩

/-- Python `dialog_template_idea`, with the curses interaction abstracted to its
user-supplied outcomes: `titleInput` is the `get_line_with_esc` result
(`none` = ESC), `notesInput` the `Textbox.edit` text (`none` = ESC /
`KeyboardInterrupt`), `confirm` whether the final prompt got `y` rather than
`n`/ESC.  An empty (whitespace-only) title falls back to `init_title`; notes
are `strip`ped; any cancellation returns `none`. -/
def dialog_template_idea (init_title : String) (init_notes : String)
    (titleInput : Option String) (notesInput : Option String) (confirm : Bool) :
    Option (String × String) :=
  -- init_notes only pre-fills the notes textbox on screen; the returned notes
  -- are whatever the textbox edit session produced.
  let _ := init_notes
  match titleInput with
  | none => none
  | some t =>
    let new_title := if pyStrip t = "" then init_title else t
    match notesInput with
    | none => none
    | some raw =>
      let new_notes := pyStrip raw
      if confirm then some (new_title, new_notes) else none

/-- Python `new_idea_dialog`: the add dialog starts from empty title and notes. -/
def new_idea_dialog (titleInput : Option String) (notesInput : Option String)
    (confirm : Bool) : Option (String × String) :=
  dialog_template_idea "" "" titleInput notesInput confirm

/-- Python `edit_idea_dialog`: the edit dialog is seeded with the record's title and
notes. -/
def edit_idea_dialog (init_title init_notes : String)
    (titleInput : Option String) (notesInput : Option String) (confirm : Bool) :
    Option (String × String) :=
  dialog_template_idea init_title init_notes titleInput notesInput confirm

/-- The mutable variables of `main`'s event loop.  Selection and scroll are
Python ints (transiently negative between clamps), the moving index is `None`
or an int, `reorder_list` is `None` or the frozen working list. -/
structure AppState where
  db : List Idea
  current_order : String
  current_selection : Int
  moving_idea_index : Option Int
  reorder_list : Option (List Idea)
  scroll_offset : Int
deriving DecidableEq, Repr

/-- The list shown by the current loop iteration: the frozen `reorder_list`
while a move is in progress, otherwise a fresh ordered scan. -/
def currentIdeas (s : AppState) : List Idea :=
  match s.moving_idea_index with
  | none => get_ideas s.db s.current_order
  | some _ => s.reorder_list.getD []

/-- The loop-top fixup of `main`: clamp `current_selection` into
`[0, num_ideas-1]` and shift `scroll_offset` minimally so the selection is
visible. -/
def clampPhase (s : AppState) (visible : Nat) : AppState :=
  let num : Int := (currentIdeas s).length
  let sel1 : Int := if num ≤ s.current_selection then num - 1 else s.current_selection
  let sel2 : Int := if sel1 < 0 then 0 else sel1
  let off : Int :=
    if sel2 < s.scroll_offset then sel2
    else if s.scroll_offset + (visible : Int) ≤ sel2 then sel2 - (visible : Int) + 1
    else s.scroll_offset
  { s with current_selection := sel2, scroll_offset := off }

/-- Python's simultaneous swap `l[i], l[j] = l[j], l[i]` (identity when either
index is out of range, which the guards in `main` rule out). -/
def pySwap (l : List Idea) (i j : Nat) : List Idea :=
  match l[i]?, l[j]? with
  | some vi, some vj => (l.set i vj).set j vi
  | _, _ => l

/-- One keystroke, with the text the user would type in any follow-up
interaction attached as parameters: the ordering-prompt answer for `o`
(already `strip().lower()`ed), the dialog keystroke outcomes plus today's
date and the fresh `AUTOINCREMENT` id for `a`, and the dialog outcomes for
`e`. -/
inductive Ev where
  | keyUp
  | keyDown
  | keyOrder (choice : String)
  | keyAdd (titleInput : Option String) (notesInput : Option String)
      (confirm : Bool) (today : String) (new_id : Nat)
  | keyDel
  | keyArchive
  | keyEdit (titleInput : Option String) (notesInput : Option String)
      (confirm : Bool)
  | keySpace

/-- The key-handling branch of one `main` loop iteration, acting on the state
as it stands after the loop-top clamp.  Returns the new state and whether
`curses.flash()` was called. -/
def dispatch (s : AppState) (visible : Nat) (e : Ev) : AppState × Bool :=
  let ideas := currentIdeas s
  let num : Int := ideas.length
  match e with
  | .keyUp =>
    match s.moving_idea_index with
    | none => ({ s with current_selection := max 0 (s.current_selection - 1) }, false)
    | some m =>
      if 0 < m then
        let r := s.reorder_list.getD []
        ({ s with reorder_list := some (pySwap r m.toNat (m.toNat - 1)),
                  moving_idea_index := some (m - 1),
                  current_selection := m - 1 }, false)
      else (s, false)
  | .keyDown =>
    match s.moving_idea_index with
    | none => ({ s with current_selection := min (num - 1) (s.current_selection + 1) }, false)
    | some m =>
      if m < num - 1 then
        let r := s.reorder_list.getD []
        ({ s with reorder_list := some (pySwap r m.toNat (m.toNat + 1)),
                  moving_idea_index := some (m + 1),
                  current_selection := m + 1 }, false)
      else (s, false)
  | .keyOrder choice =>
    match s.moving_idea_index with
    | some _ => (s, false)
    | none =>
      let ord := if choice = "i" then "pos"
                 else if choice = "d" then "created_date"
                 else s.current_order
      ({ s with current_order := ord, current_selection := 0, scroll_offset := 0 }, false)
  | .keyAdd tIn nIn conf today nid =>
    match s.moving_idea_index with
    | some _ => (s, false)
    | none =>
      match new_idea_dialog tIn nIn conf with
      | none => (s, false)
      | some (t, n) =>
        let db' := add_idea s.db t n today nid
        let ideas' := get_ideas db' s.current_order
        let sel : Int := (ideas'.length : Int) - 1
        let off : Int :=
          if s.scroll_offset + (visible : Int) ≤ sel then sel - (visible : Int) + 1
          else s.scroll_offset
        ({ s with db := db', current_selection := sel, scroll_offset := off }, false)
  | .keyDel =>
    match s.moving_idea_index with
    | some _ => (s, false)
    | none =>
      if 0 < num then
        let idea_id := ((ideas[s.current_selection.toNat]?).getD default).id
        let db' := delete_idea s.db idea_id
        let ideas' := get_ideas db' s.current_order
        let sel : Int :=
          if (ideas'.length : Int) ≤ s.current_selection then
            max 0 ((ideas'.length : Int) - 1)
          else s.current_selection
        ({ s with db := db', current_selection := sel, scroll_offset := 0 }, false)
      else (s, false)
  | .keyArchive =>
    match s.moving_idea_index with
    | some _ => (s, false)
    | none =>
      if 0 < num then
        let idea := (ideas[s.current_selection.toNat]?).getD default
        ({ s with db := toggle_idea_archived s.db idea.id idea.archived }, false)
      else (s, false)
  | .keyEdit tIn nIn conf =>
    match s.moving_idea_index with
    | some _ => (s, false)
    | none =>
      if 0 < num then
        let idea := (ideas[s.current_selection.toNat]?).getD default
        match edit_idea_dialog idea.title idea.notes tIn nIn conf with
        | none => (s, false)
        | some (t, n) => ({ s with db := update_idea_info s.db idea.id t n }, false)
      else (s, false)
  | .keySpace =>
    if s.current_order ≠ "pos" then (s, true)
    else
      match s.moving_idea_index with
      | none =>
        ({ s with reorder_list := some (get_ideas s.db s.current_order),
                  moving_idea_index := some s.current_selection }, false)
      | some m =>
        ({ s with db := update_idea_order s.db (s.reorder_list.getD []),
                  current_selection := m,
                  moving_idea_index := none,
                  reorder_list := none }, false)

/-- One full loop iteration: clamp, render (pure no-op here), read `e`,
dispatch. -/
def step (s : AppState) (visible : Nat) (e : Ev) : AppState × Bool :=
  dispatch (clampPhase s visible) visible e

/-- An up or down arrow press inside move-mode. -/
inductive MoveKey where
  | up
  | down
deriving DecidableEq, Repr

/-- The event a `MoveKey` stands for. -/
def MoveKey.toEv : MoveKey → Ev
  | .up => Ev.keyUp
  | .down => Ev.keyDown

/-- Run a sequence of up/down presses, one loop iteration each. -/
def runMoves (visible : Nat) : AppState → List MoveKey → AppState
  | s, [] => s
  | s, m :: rest => runMoves visible (step s visible m.toEv).1 rest

example : add_idea [] "Buy milk" "2% preferably" "2026-10-12" 1 =
    [⟨1, "Buy milk", 0, "2026-10-12", "2% preferably", false⟩] := by decide

example : dialog_template_idea "Old" "" (some "") (some "  trimmed  ") true =
    some ("Old", "trimmed") := by decide

/-! ### Permutation facts about the in-place swaps -/

theorem cons_set_perm (a : Idea) :
    ∀ (t : List Idea) (k : Nat) (v : Idea),
      t[k]? = some v → List.Perm (v :: t.set k a) (a :: t)
  | [], k, v, h => by simp at h
  | b :: s, 0, v, h => by
    simp only [List.getElem?_cons_zero, Option.some.injEq] at h
    subst h
    exact List.Perm.swap _ _ _
  | b :: s, k + 1, v, h => by
    simp only [List.getElem?_cons_succ] at h
    have ih := cons_set_perm a s k v h
    show List.Perm (v :: b :: s.set k a) (a :: b :: s)
    exact (List.Perm.swap b v _).trans ((ih.cons b).trans (List.Perm.swap a b s))

theorem pySwap_perm : ∀ (l : List Idea) (i j : Nat), List.Perm (pySwap l i j) l
  | [], i, j => by simp [pySwap]
  | a :: t, 0, 0 => by simp [pySwap]
  | a :: t, 0, k + 1 => by
    rcases h : t[k]? with _ | vj
    · simp [pySwap, h]
    · simpa [pySwap, h] using cons_set_perm a t k vj h
  | a :: t, k + 1, 0 => by
    rcases h : t[k]? with _ | vi
    · simp [pySwap, h]
    · simpa [pySwap, h] using cons_set_perm a t k vi h
  | a :: t, k + 1, m + 1 => by
    have ih := pySwap_perm t k m
    rcases hk : t[k]? with _ | vk <;> rcases hm : t[m]? with _ | vm
    · simp [pySwap, hk, hm]
    · simp [pySwap, hk, hm]
    · simp [pySwap, hk, hm]
    · simp only [pySwap, hk, hm, List.getElem?_cons_succ] at ih ⊢
      exact ih.cons a

/-! ### What `update_idea_order` writes -/

/-- Index of the first occurrence of `i` in a list of ids. -/
def idIndexFrom (i : Nat) : List Nat → Option Nat
  | [] => none
  | j :: rest => if j = i then some 0 else Option.map (· + 1) (idIndexFrom i rest)

theorem idIndexFrom_of_not_mem {i : Nat} :
    ∀ {ids : List Nat}, i ∉ ids → idIndexFrom i ids = none
  | [], _ => rfl
  | j :: rest, h => by
    have hj : j ≠ i := fun hji => h (hji ▸ List.mem_cons_self j rest)
    have hrest : i ∉ rest := fun hr => h (List.mem_cons_of_mem j hr)
    simp [idIndexFrom, hj, idIndexFrom_of_not_mem hrest]

/-- The per-row effect of the whole `update_idea_order` loop started at
index `k`. -/
def applyNewPos (ids : List Nat) (k : Nat) (r : Idea) : Idea :=
  match idIndexFrom r.id ids with
  | some j => { r with pos := k + j }
  | none => r

theorem applyNewPos_cons_ne {oid : Nat} {r : Idea} (ids : List Nat) (k : Nat)
    (hne : r.id ≠ oid) :
    applyNewPos (oid :: ids) k r = applyNewPos ids (k + 1) r := by
  have h1 : oid ≠ r.id := fun h => hne h.symm
  rcases h : idIndexFrom r.id ids with _ | j
  · simp [applyNewPos, idIndexFrom, h1, h]
  · have harith : k + (j + 1) = k + 1 + j := by omega
    simp [applyNewPos, idIndexFrom, h1, h, harith]

theorem updateOrderGo_eq_map :
    ∀ (order : List Idea) (db : List Idea) (k : Nat),
      (order.map Idea.id).Nodup →
      updateOrderGo db k order = db.map (applyNewPos (order.map Idea.id) k)
  | [], db, k, _ => by
    have h : List.map (applyNewPos [] k) db = List.map (fun r => r) db :=
      List.map_congr_left (fun r _ => rfl)
    simp [updateOrderGo, h]
  | o :: rest, db, k, hnd => by
    rw [List.map_cons, List.nodup_cons] at hnd
    obtain ⟨hno, hnd'⟩ := hnd
    have ih := updateOrderGo_eq_map rest (setPos db k o.id) (k + 1) hnd'
    show updateOrderGo (setPos db k o.id) (k + 1) rest = _
    rw [ih, setPos, List.map_map]
    refine List.map_congr_left (fun r _ => ?_)
    simp only [List.map_cons]
    by_cases hid : r.id = o.id
    · have hfst : applyNewPos (rest.map Idea.id) (k + 1)
          ({ r with pos := k } : Idea) = { r with pos := k } := by
        have : ({ r with pos := k } : Idea).id = r.id := rfl
        simp [applyNewPos, this, hid, idIndexFrom_of_not_mem hno]
      have hsnd : applyNewPos (o.id :: rest.map Idea.id) k r = { r with pos := k } := by
        simp [applyNewPos, idIndexFrom, hid]
      rw [Function.comp_apply, if_pos hid, hfst, hsnd]
    · rw [Function.comp_apply, if_neg hid, applyNewPos_cons_ne _ _ hid]

/-- The order list with positions overwritten by the enumeration indices,
starting at `k`: the rows `update_idea_order` makes the table consist of. -/
def reindexFrom (k : Nat) : List Idea → List Idea
  | [] => []
  | o :: rest => { o with pos := k } :: reindexFrom (k + 1) rest

theorem map_applyNewPos_eq_reindexFrom :
    ∀ (order : List Idea) (k : Nat), (order.map Idea.id).Nodup →
      order.map (applyNewPos (order.map Idea.id) k) = reindexFrom k order
  | [], _, _ => rfl
  | o :: rest, k, hnd => by
    rw [List.map_cons, List.nodup_cons] at hnd
    obtain ⟨hno, hnd'⟩ := hnd
    have hhead : applyNewPos (o.id :: rest.map Idea.id) k o = { o with pos := k } := by
      simp [applyNewPos, idIndexFrom]
    have htail : rest.map (applyNewPos (o.id :: rest.map Idea.id) k) =
        rest.map (applyNewPos (rest.map Idea.id) (k + 1)) := by
      refine List.map_congr_left (fun r hr => ?_)
      have hne : r.id ≠ o.id := fun h => hno (h ▸ List.mem_map_of_mem Idea.id hr)
      exact applyNewPos_cons_ne _ _ hne
    show applyNewPos _ k o :: rest.map (applyNewPos _ k) = _
    rw [List.map_cons] at *
    rw [hhead, htail, map_applyNewPos_eq_reindexFrom rest (k + 1) hnd']
    rfl

theorem reindexFrom_map_id :
    ∀ (l : List Idea) (k : Nat), (reindexFrom k l).map Idea.id = l.map Idea.id
  | [], _ => rfl
  | o :: rest, k => by
    simp [reindexFrom, reindexFrom_map_id rest (k + 1)]

theorem reindexFrom_map_pos :
    ∀ (l : List Idea) (k : Nat), (reindexFrom k l).map Idea.pos = List.range' k l.length
  | [], _ => rfl
  | o :: rest, k => by
    simp [reindexFrom, List.range', reindexFrom_map_pos rest (k + 1)]

/-- Strict ordering on positions: the sort key once all positions are
distinct. -/
def posLt (a b : Idea) : Prop := a.pos < b.pos

instance : DecidableRel posLt := fun a b => inferInstanceAs (Decidable (a.pos < b.pos))

instance : IsAntisymm Idea posLt :=
  ⟨fun _ _ h h' => absurd (Nat.lt_trans h h') (Nat.lt_irrefl _)⟩

theorem reindexFrom_pairwise (l : List Idea) (k : Nat) :
    (reindexFrom k l).Pairwise posLt := by
  have h : ((reindexFrom k l).map Idea.pos).Pairwise (· < ·) := by
    rw [reindexFrom_map_pos]
    exact List.pairwise_lt_range' k l.length
  exact (List.pairwise_map.mp h).imp (fun hab => hab)

theorem sorted_posLt_of_sorted_posLe {l : List Idea}
    (hs : List.Sorted posLe l) (hn : (l.map Idea.pos).Nodup) :
    List.Sorted posLt l := by
  have hne : l.Pairwise (fun a b : Idea => a.pos ≠ b.pos) := List.pairwise_map.mp hn
  exact (hs.and hne).imp (fun h => Nat.lt_of_le_of_ne h.1 h.2)

/-- The heart of a committed reorder: on a table whose ids are distinct and
that the snapshot permutes, `update_idea_order` followed by a by-position
scan returns exactly the snapshot rows, renumbered from 0. -/
theorem get_ideas_update_order (db snap : List Idea)
    (hnd : (db.map Idea.id).Nodup) (hp : List.Perm db snap) :
    get_ideas (update_idea_order db snap) "pos" = reindexFrom 0 snap := by
  have hnds : (snap.map Idea.id).Nodup := ((hp.map Idea.id).nodup_iff).mp hnd
  have hchar : update_idea_order db snap =
      db.map (applyNewPos (snap.map Idea.id) 0) :=
    updateOrderGo_eq_map snap db 0 hnds
  have hperm1 : List.Perm (update_idea_order db snap) (reindexFrom 0 snap) := by
    rw [hchar, ← map_applyNewPos_eq_reindexFrom snap 0 hnds]
    exact hp.map _
  have hget : get_ideas (update_idea_order db snap) "pos" =
      List.insertionSort posLe (update_idea_order db snap) := by
    simp [get_ideas]
  have hperm2 : List.Perm (List.insertionSort posLe (update_idea_order db snap))
      (reindexFrom 0 snap) :=
    (List.perm_insertionSort posLe _).trans hperm1
  have hposnodup : ((reindexFrom 0 snap).map Idea.pos).Nodup := by
    rw [reindexFrom_map_pos]
    exact List.nodup_range' 0 snap.length
  have hposnodup' :
      ((List.insertionSort posLe (update_idea_order db snap)).map Idea.pos).Nodup :=
    ((hperm2.map Idea.pos).nodup_iff).mpr hposnodup
  have hs1 : List.Sorted posLt (List.insertionSort posLe (update_idea_order db snap)) :=
    sorted_posLt_of_sorted_posLe (List.sorted_insertionSort posLe _) hposnodup'
  have hs2 : List.Sorted posLt (reindexFrom 0 snap) := reindexFrom_pairwise snap 0
  rw [hget]
  exact List.eq_of_perm_of_sorted hperm2 hs1 hs2

/-! ### The move-mode session -/

theorem clampPhase_db (s : AppState) (v : Nat) : (clampPhase s v).db = s.db := rfl

theorem clampPhase_order (s : AppState) (v : Nat) :
    (clampPhase s v).current_order = s.current_order := rfl

theorem clampPhase_moving (s : AppState) (v : Nat) :
    (clampPhase s v).moving_idea_index = s.moving_idea_index := rfl

theorem clampPhase_reorder (s : AppState) (v : Nat) :
    (clampPhase s v).reorder_list = s.reorder_list := rfl

theorem dispatch_space_enter (s : AppState) (v : Nat)
    (ho : s.current_order = "pos") (hm : s.moving_idea_index = none) :
    dispatch s v Ev.keySpace =
      ({ s with reorder_list := some (get_ideas s.db s.current_order),
                moving_idea_index := some s.current_selection }, false) := by
  simp [dispatch, ho, hm]

theorem dispatch_space_confirm (s : AppState) (v : Nat)
    (ho : s.current_order = "pos") {m : Int} (hm : s.moving_idea_index = some m) :
    dispatch s v Ev.keySpace =
      ({ s with db := update_idea_order s.db (s.reorder_list.getD []),
                current_selection := m, moving_idea_index := none,
                reorder_list := none }, false) := by
  simp [dispatch, ho, hm]

theorem dispatch_up_moving (s : AppState) (v : Nat) {m : Int}
    (hm : s.moving_idea_index = some m) :
    dispatch s v Ev.keyUp =
      if 0 < m then
        ({ s with
            reorder_list := some (pySwap (s.reorder_list.getD []) m.toNat (m.toNat - 1)),
            moving_idea_index := some (m - 1),
            current_selection := m - 1 }, false)
      else (s, false) := by
  simp [dispatch, hm]

theorem dispatch_down_moving (s : AppState) (v : Nat) {m : Int}
    (hm : s.moving_idea_index = some m) :
    dispatch s v Ev.keyDown =
      if m < ((currentIdeas s).length : Int) - 1 then
        ({ s with
            reorder_list := some (pySwap (s.reorder_list.getD []) m.toNat (m.toNat + 1)),
            moving_idea_index := some (m + 1),
            current_selection := m + 1 }, false)
      else (s, false) := by
  simp [dispatch, hm]

/-- Invariant of a move-mode session over the table `db0`: the store and sort
order are untouched, a moving index exists, and the frozen working list is a
permutation of the by-position scan taken at entry. -/
def MovingOk (db0 : List Idea) (s : AppState) : Prop :=
  s.db = db0 ∧ s.current_order = "pos" ∧
    (∃ m : Int, s.moving_idea_index = some m) ∧
    ∃ l : List Idea, s.reorder_list = some l ∧ List.Perm l (get_ideas db0 "pos")

theorem movingOk_clamp {db0 : List Idea} {s : AppState} (h : MovingOk db0 s)
    (v : Nat) : MovingOk db0 (clampPhase s v) := h

theorem movingOk_step_move {db0 : List Idea} {s : AppState} (h : MovingOk db0 s)
    (v : Nat) (mk : MoveKey) : MovingOk db0 (step s v mk.toEv).1 := by
  obtain ⟨h1, h2, ⟨m, h3⟩, ⟨l, h4, h5⟩⟩ := movingOk_clamp h v
  have hswap : ∀ i j : Nat,
      List.Perm (pySwap ((clampPhase s v).reorder_list.getD []) i j)
        (get_ideas db0 "pos") := by
    intro i j
    rw [h4]
    exact (pySwap_perm l i j).trans h5
  cases mk
  case up =>
    show MovingOk db0 (dispatch (clampPhase s v) v Ev.keyUp).1
    rw [dispatch_up_moving _ v h3]
    by_cases hg : 0 < m
    · simp only [if_pos hg]
      exact ⟨h1, h2, ⟨m - 1, rfl⟩,
        ⟨pySwap ((clampPhase s v).reorder_list.getD []) m.toNat (m.toNat - 1),
          rfl, hswap m.toNat (m.toNat - 1)⟩⟩
    · simp only [if_neg hg]
      exact ⟨h1, h2, ⟨m, h3⟩, ⟨l, h4, h5⟩⟩
  case down =>
    show MovingOk db0 (dispatch (clampPhase s v) v Ev.keyDown).1
    rw [dispatch_down_moving _ v h3]
    by_cases hg : m < ((currentIdeas (clampPhase s v)).length : Int) - 1
    · simp only [if_pos hg]
      exact ⟨h1, h2, ⟨m + 1, rfl⟩,
        ⟨pySwap ((clampPhase s v).reorder_list.getD []) m.toNat (m.toNat + 1),
          rfl, hswap m.toNat (m.toNat + 1)⟩⟩
    · simp only [if_neg hg]
      exact ⟨h1, h2, ⟨m, h3⟩, ⟨l, h4, h5⟩⟩

theorem movingOk_runMoves {db0 : List Idea} (v : Nat) :
    ∀ (moves : List MoveKey) (s : AppState), MovingOk db0 s →
      MovingOk db0 (runMoves v s moves)
  | [], _, h => h
  | mk :: rest, _, h => movingOk_runMoves v rest _ (movingOk_step_move h v mk)

/-- The Idle state `main` is in when the user hits space with manual ordering
active. -/
def startState (db : List Idea) (sel off : Int) : AppState :=
  ⟨db, "pos", sel, none, none, off⟩

/-- Enter move-mode from `startState`, then run a sequence of up/down
presses. -/
def moveSession (db : List Idea) (sel off : Int) (v : Nat)
    (moves : List MoveKey) : AppState :=
  runMoves v (step (startState db sel off) v Ev.keySpace).1 moves

/-- A full committed session: enter, reposition, hit space again to
confirm. -/
def moveCommit (db : List Idea) (sel off : Int) (v : Nat)
    (moves : List MoveKey) : AppState :=
  (step (moveSession db sel off v moves) v Ev.keySpace).1

theorem movingOk_enter (db : List Idea) (sel off : Int) (v : Nat) :
    MovingOk db (step (startState db sel off) v Ev.keySpace).1 := by
  show MovingOk db (dispatch (clampPhase (startState db sel off) v) v Ev.keySpace).1
  rw [dispatch_space_enter _ v rfl rfl]
  exact ⟨rfl, rfl, ⟨_, rfl⟩, ⟨_, rfl, List.Perm.refl _⟩⟩

theorem moveSession_movingOk (db : List Idea) (sel off : Int) (v : Nat)
    (moves : List MoveKey) : MovingOk db (moveSession db sel off v moves) :=
  movingOk_runMoves v moves _ (movingOk_enter db sel off v)

theorem moveCommit_db (db : List Idea) (sel off : Int) (v : Nat)
    (moves : List MoveKey) :
    ∃ snap, (moveSession db sel off v moves).reorder_list = some snap ∧
      List.Perm snap (get_ideas db "pos") ∧
      (moveCommit db sel off v moves).db = update_idea_order db snap := by
  obtain ⟨h1, h2, ⟨m, h3⟩, ⟨l, h4, h5⟩⟩ := moveSession_movingOk db sel off v moves
  refine ⟨l, h4, h5, ?_⟩
  have ho : (clampPhase (moveSession db sel off v moves) v).current_order = "pos" := by
    rw [clampPhase_order, h2]
  have hm' : (clampPhase (moveSession db sel off v moves) v).moving_idea_index =
      some m := by
    rw [clampPhase_moving, h3]
  show (dispatch (clampPhase (moveSession db sel off v moves) v) v Ev.keySpace).1.db = _
  rw [dispatch_space_confirm _ v ho hm']
  show update_idea_order (clampPhase (moveSession db sel off v moves) v).db
      ((clampPhase (moveSession db sel off v moves) v).reorder_list.getD []) = _
  rw [clampPhase_db, clampPhase_reorder, h1, h4]
  rfl

theorem moveSession_nil_reorder (db : List Idea) (sel off : Int) (v : Nat) :
    (moveSession db sel off v []).reorder_list = some (get_ideas db "pos") := by
  show ((dispatch (clampPhase (startState db sel off) v) v Ev.keySpace).1).reorder_list = _
  rw [dispatch_space_enter _ v rfl rfl]
  rfl

/-! ### Scans ignore fields other than the sort key -/

theorem orderedInsert_map (f : Idea → Idea) (r : Idea → Idea → Prop)
    [DecidableRel r] (hf : ∀ a b, r (f a) (f b) ↔ r a b) (a : Idea) :
    ∀ l : List Idea,
      List.orderedInsert r (f a) (l.map f) = (List.orderedInsert r a l).map f
  | [] => rfl
  | b :: t => by
    by_cases h : r a b
    · simp only [List.map_cons, List.orderedInsert, if_pos h,
        if_pos ((hf a b).mpr h)]
    · simp only [List.map_cons, List.orderedInsert, if_neg h,
        if_neg (fun hc => h ((hf a b).mp hc))]
      rw [orderedInsert_map f r hf a t]

theorem insertionSort_map (f : Idea → Idea) (r : Idea → Idea → Prop)
    [DecidableRel r] (hf : ∀ a b, r (f a) (f b) ↔ r a b) :
    ∀ l : List Idea,
      List.insertionSort r (l.map f) = (List.insertionSort r l).map f
  | [] => rfl
  | b :: t => by
    simp only [List.map_cons, List.insertionSort]
    rw [insertionSort_map f r hf t, orderedInsert_map f r hf b]

theorem get_ideas_map (db : List Idea) (ob : String) (f : Idea → Idea)
    (hpos : ∀ x, (f x).pos = x.pos)
    (hdate : ∀ x, (f x).created_date = x.created_date) :
    get_ideas (db.map f) ob = (get_ideas db ob).map f := by
  have hfp : ∀ a b, posLe (f a) (f b) ↔ posLe a b := by
    intro a b; simp [posLe, hpos]
  have hfd : ∀ a b, dateLe (f a) (f b) ↔ dateLe a b := by
    intro a b; simp [dateLe, hdate]
  unfold get_ideas
  by_cases h1 : ob = "pos"
  · simp only [if_pos h1]
    exact insertionSort_map f posLe hfp db
  · by_cases h2 : ob = "created_date"
    · simp only [if_neg h1, if_pos h2]
      exact insertionSort_map f dateLe hfd db
    · simp only [if_neg h1, if_neg h2]
      exact insertionSort_map f posLe hfp db

/-- The record `ideas[current_selection]` the Idle key handlers act on. -/
def selectedIdea (s : AppState) : Idea :=
  ((currentIdeas s)[s.current_selection.toNat]?).getD default

/-! ### Claims -/

/-- C2: for every store state, an insert appends a single new record whose
position is one greater than the maximum position present (0 on an empty
table), with `created_date = today` and `archived = false`. -/
theorem add_idea_appends_max_plus_one (db : List Idea)
    (title notes today : String) (new_id : Nat) :
    ∃ r : Idea, add_idea db title notes today new_id = db ++ [r] ∧
      r.id = new_id ∧ r.title = title ∧ r.notes = notes ∧
      r.created_date = today ∧ r.archived = false ∧
      (db = [] → r.pos = 0) ∧ (∀ x ∈ db, x.pos < r.pos) ∧
      (db ≠ [] → ∃ x ∈ db, r.pos = x.pos + 1) := by
  rcases hm : (db.map Idea.pos).maximum with _ | m
  · have hdb : db = [] := List.map_eq_nil_iff.mp (List.maximum_eq_bot.mp hm)
    refine ⟨⟨new_id, title, 0, today, notes, false⟩, ?_, rfl, rfl, rfl, rfl, rfl,
      fun _ => rfl, ?_, ?_⟩
    · simp [add_idea, hm]
    · intro x hx
      rw [hdb] at hx
      cases hx
    · intro h
      exact absurd hdb h
  · have hmem : m ∈ db.map Idea.pos := List.maximum_mem hm
    obtain ⟨x0, hx0, hx0m⟩ := List.mem_map.mp hmem
    refine ⟨⟨new_id, title, m + 1, today, notes, false⟩, ?_, rfl, rfl, rfl, rfl, rfl,
      ?_, ?_, ?_⟩
    · simp [add_idea, hm]
    · intro h
      rw [h] at hm
      simp at hm
    · intro x hx
      have hle : x.pos ≤ m :=
        List.le_maximum_of_mem (List.mem_map_of_mem Idea.pos hx) hm
      show x.pos < m + 1
      omega
    · intro _
      refine ⟨x0, hx0, ?_⟩
      rw [hx0m]

/-- A concrete two-row table used by witnesses. -/
def dbTwo : List Idea :=
  [⟨1, "a", 0, "2026-01-01", "", false⟩, ⟨2, "b", 1, "2026-01-02", "", true⟩]

/-- C2 witness: adding to a concrete two-row table appends position 2. -/
theorem add_idea_appends_max_plus_one_witness :
    ∃ r : Idea, add_idea dbTwo "c" "n" "2026-10-12" 7 = dbTwo ++ [r] ∧
      r.id = 7 ∧ r.title = "c" ∧ r.notes = "n" ∧
      r.created_date = "2026-10-12" ∧ r.archived = false ∧
      (dbTwo = [] → r.pos = 0) ∧ (∀ x ∈ dbTwo, x.pos < r.pos) ∧
      (dbTwo ≠ [] → ∃ x ∈ dbTwo, r.pos = x.pos + 1) :=
  add_idea_appends_max_plus_one dbTwo "c" "n" "2026-10-12" 7

/-- C5: deleting an id removes exactly the rows with that id; every other row
survives verbatim (so its position value is untouched) and in its original
relative order. -/
theorem delete_idea_exact_removal (db : List Idea) (i : Nat) :
    (∀ r ∈ delete_idea db i, r ∈ db ∧ r.id ≠ i) ∧
    (∀ r ∈ db, r.id ≠ i → r ∈ delete_idea db i) ∧
    (∀ r ∈ db, r.id = i → r ∉ delete_idea db i) ∧
    List.Sublist (delete_idea db i) db := by
  refine ⟨?_, ?_, ?_, ?_⟩
  · intro r hr
    rw [delete_idea, List.mem_filter] at hr
    exact ⟨hr.1, by simpa using hr.2⟩
  · intro r hr hne
    rw [delete_idea, List.mem_filter]
    exact ⟨hr, by simpa using hne⟩
  · intro r hr hid hmem
    rw [delete_idea, List.mem_filter] at hmem
    have hne : r.id ≠ i := by simpa using hmem.2
    exact hne hid
  · simp only [delete_idea]
    exact List.filter_sublist db

/-- C1: a committed move-mode session persists the frozen snapshot: the scan
by position afterwards is exactly the snapshot with positions renumbered
0..N-1, so its id sequence is the snapshot's id sequence. -/
theorem move_commit_persists_snapshot_order (db : List Idea) (sel off : Int)
    (v : Nat) (moves : List MoveKey) (hnd : (db.map Idea.id).Nodup) :
    ∃ snap, (moveSession db sel off v moves).reorder_list = some snap ∧
      get_ideas (moveCommit db sel off v moves).db "pos" = reindexFrom 0 snap ∧
      (get_ideas (moveCommit db sel off v moves).db "pos").map Idea.id =
        snap.map Idea.id ∧
      (get_ideas (moveCommit db sel off v moves).db "pos").map Idea.pos =
        List.range snap.length := by
  obtain ⟨snap, h1, h2, h3⟩ := moveCommit_db db sel off v moves
  have hg : get_ideas db "pos" = List.insertionSort posLe db := by
    simp [get_ideas]
  have h2' : List.Perm snap (List.insertionSort posLe db) := hg ▸ h2
  have hdbsnap : List.Perm db snap :=
    (List.perm_insertionSort posLe db).symm.trans h2'.symm
  have hread : get_ideas (moveCommit db sel off v moves).db "pos" =
      reindexFrom 0 snap := by
    rw [h3]
    exact get_ideas_update_order db snap hnd hdbsnap
  refine ⟨snap, h1, hread, ?_, ?_⟩
  · rw [hread, reindexFrom_map_id]
  · rw [hread, reindexFrom_map_pos, List.range_eq_range']

/-- A concrete three-row table used by session witnesses. -/
def dbW : List Idea :=
  [⟨1, "A", 0, "2026-01-01", "", false⟩, ⟨2, "B", 1, "2026-01-02", "", false⟩,
    ⟨3, "C", 2, "2026-01-03", "", false⟩]

/-- C1 witness: the session that selects index 1 and presses up once. -/
theorem move_commit_persists_snapshot_order_witness :
    ∃ snap, (moveSession dbW 1 0 5 [MoveKey.up]).reorder_list = some snap ∧
      get_ideas (moveCommit dbW 1 0 5 [MoveKey.up]).db "pos" = reindexFrom 0 snap ∧
      (get_ideas (moveCommit dbW 1 0 5 [MoveKey.up]).db "pos").map Idea.id =
        snap.map Idea.id ∧
      (get_ideas (moveCommit dbW 1 0 5 [MoveKey.up]).db "pos").map Idea.pos =
        List.range snap.length :=
  move_commit_persists_snapshot_order dbW 1 0 5 [MoveKey.up] (by decide)

/-- C3: entering move-mode and confirming immediately leaves the stored id
order (read back by position) unchanged. -/
theorem enter_confirm_identity (db : List Idea) (sel off : Int) (v : Nat)
    (hnd : (db.map Idea.id).Nodup) :
    (get_ideas (moveCommit db sel off v []).db "pos").map Idea.id =
      (get_ideas db "pos").map Idea.id := by
  obtain ⟨snap, h1, h2, h3⟩ := moveCommit_db db sel off v []
  have hsnap : snap = get_ideas db "pos" := by
    have hnil := moveSession_nil_reorder db sel off v
    rw [h1] at hnil
    exact Option.some.inj hnil
  have hg : get_ideas db "pos" = List.insertionSort posLe db := by
    simp [get_ideas]
  have h2' : List.Perm snap (List.insertionSort posLe db) := hg ▸ h2
  have hdbsnap : List.Perm db snap :=
    (List.perm_insertionSort posLe db).symm.trans h2'.symm
  have hread : get_ideas (moveCommit db sel off v []).db "pos" =
      reindexFrom 0 snap := by
    rw [h3]
    exact get_ideas_update_order db snap hnd hdbsnap
  rw [hread, reindexFrom_map_id, hsnap]

/-- C3 witness: enter-then-confirm on the concrete three-row table. -/
theorem enter_confirm_identity_witness :
    (get_ideas (moveCommit dbW 0 0 5 []).db "pos").map Idea.id =
      (get_ideas dbW "pos").map Idea.id :=
  enter_confirm_identity dbW 0 0 5 (by decide)

/-- C9: up/down presses only permute the frozen working list: after any
sequence of them the store is untouched and the list that would be committed
is a permutation of the by-position scan taken at move-mode entry. -/
theorem move_swaps_preserve_multiset (db : List Idea) (sel off : Int) (v : Nat)
    (moves : List MoveKey) :
    (moveSession db sel off v moves).db = db ∧
    ∃ snap, (moveSession db sel off v moves).reorder_list = some snap ∧
      List.Perm snap (get_ideas db "pos") := by
  obtain ⟨h1, _, _, ⟨l, h4, h5⟩⟩ := moveSession_movingOk db sel off v moves
  exact ⟨h1, l, h4, h5⟩

/-- C4: pressing space while sorted by creation date only flashes: the
handler returns the state unchanged together with the flash signal. -/
theorem space_rejected_when_sorted_by_date (s : AppState) (v : Nat)
    (h : s.current_order = "created_date") :
    dispatch s v Ev.keySpace = (s, true) := by
  have hne : s.current_order ≠ "pos" := by
    rw [h]
    decide
  simp [dispatch, hne]

/-- C4 witness: a concrete Idle state sorted by date. -/
theorem space_rejected_when_sorted_by_date_witness :
    dispatch ⟨dbW, "created_date", 0, none, none, 0⟩ 5 Ev.keySpace =
      (⟨dbW, "created_date", 0, none, none, 0⟩, true) :=
  space_rejected_when_sorted_by_date ⟨dbW, "created_date", 0, none, none, 0⟩ 5 rfl

/-- C10: with an empty displayed list, the delete, toggle-archive and edit
handlers are no-ops: the guards fail and the state (store included) is
returned unchanged, with no flash. -/
theorem empty_list_keys_noop (s : AppState) (v : Nat) (tIn nIn : Option String)
    (conf : Bool) (hmov : s.moving_idea_index = none)
    (hempty : currentIdeas s = []) :
    dispatch s v Ev.keyDel = (s, false) ∧
    dispatch s v Ev.keyArchive = (s, false) ∧
    dispatch s v (Ev.keyEdit tIn nIn conf) = (s, false) := by
  refine ⟨?_, ?_, ?_⟩ <;> simp [dispatch, hmov, hempty]

/-- C10 witness: the empty-store Idle state. -/
theorem empty_list_keys_noop_witness :
    dispatch ⟨[], "pos", 0, none, none, 0⟩ 5 Ev.keyDel =
      (⟨[], "pos", 0, none, none, 0⟩, false) ∧
    dispatch ⟨[], "pos", 0, none, none, 0⟩ 5 Ev.keyArchive =
      (⟨[], "pos", 0, none, none, 0⟩, false) ∧
    dispatch ⟨[], "pos", 0, none, none, 0⟩ 5
        (Ev.keyEdit (some "t") (some "n") true) =
      (⟨[], "pos", 0, none, none, 0⟩, false) :=
  empty_list_keys_noop ⟨[], "pos", 0, none, none, 0⟩ 5 (some "t") (some "n")
    true rfl (by decide)

/-- C6: toggling `archived` twice (passing the row's current flag each time,
as `main` does) restores the table exactly; and a toggle never changes the id
or position sequence a scan returns, in either sort mode. -/
theorem toggle_archived_involutive_and_order_blind (db : List Idea) (i : Nat)
    (c : Bool) (ob : String) (hc : ∀ r ∈ db, r.id = i → r.archived = c) :
    toggle_idea_archived (toggle_idea_archived db i c) i (!c) = db ∧
    (get_ideas (toggle_idea_archived db i c) ob).map (fun r => (r.id, r.pos)) =
      (get_ideas db ob).map (fun r => (r.id, r.pos)) := by
  constructor
  · rw [toggle_idea_archived, toggle_idea_archived, List.map_map]
    refine (List.map_congr_left ?_).trans (List.map_id' db)
    intro r hr
    by_cases hid : r.id = i
    · have hrc := hc r hr hid
      simp only [Function.comp_apply, if_pos hid]
      rw [Bool.not_not, ← hrc]
    · simp only [Function.comp_apply, if_neg hid]
  · have hform : toggle_idea_archived db i c =
        db.map (fun r => if r.id = i then { r with archived := !c } else r) := rfl
    have hpos : ∀ x : Idea,
        ((fun r => if r.id = i then { r with archived := !c } else r) x).pos =
          x.pos := by
      intro x
      by_cases hid : x.id = i <;> simp [hid]
    have hdate : ∀ x : Idea,
        ((fun r => if r.id = i then { r with archived := !c } else r) x).created_date =
          x.created_date := by
      intro x
      by_cases hid : x.id = i <;> simp [hid]
    rw [hform, get_ideas_map db ob _ hpos hdate, List.map_map]
    refine List.map_congr_left ?_
    intro r _
    by_cases hid : r.id = i <;> simp [hid]

/-- C6 witness: double toggle on the two-row table, scans in both modes. -/
theorem toggle_archived_involutive_and_order_blind_witness :
    (toggle_idea_archived (toggle_idea_archived dbTwo 2 true) 2 (!true) = dbTwo ∧
      (get_ideas (toggle_idea_archived dbTwo 2 true) "pos").map
          (fun r => (r.id, r.pos)) =
        (get_ideas dbTwo "pos").map (fun r => (r.id, r.pos))) ∧
    (get_ideas (toggle_idea_archived dbTwo 2 true) "created_date").map
        (fun r => (r.id, r.pos)) =
      (get_ideas dbTwo "created_date").map (fun r => (r.id, r.pos)) :=
  ⟨toggle_archived_involutive_and_order_blind dbTwo 2 true "pos" (by decide),
    (toggle_archived_involutive_and_order_blind dbTwo 2 true "created_date"
      (by decide)).2⟩

/-- C7: in the edit handler, an empty (whitespace-only) title submission
keeps the prior title and the stored notes are the entered notes stripped:
the store is updated with the selected idea's own title and the stripped
notes. -/
theorem edit_empty_title_falls_back (s : AppState) (v : Nat) (tIn raw : String)
    (hmov : s.moving_idea_index = none) (hne : currentIdeas s ≠ [])
    (ht : pyStrip tIn = "") :
    (dispatch s v (Ev.keyEdit (some tIn) (some raw) true)).1.db =
      update_idea_info s.db (selectedIdea s).id (selectedIdea s).title
        (pyStrip raw) ∧
    ∀ x ∈ (dispatch s v (Ev.keyEdit (some tIn) (some raw) true)).1.db,
      x.id = (selectedIdea s).id →
        x.title = (selectedIdea s).title ∧ x.notes = pyStrip raw := by
  have hlen : (0 : Int) < ((currentIdeas s).length : Int) := by
    have hl : 0 < (currentIdeas s).length := List.length_pos.mpr hne
    exact_mod_cast hl
  have hdisp : (dispatch s v (Ev.keyEdit (some tIn) (some raw) true)).1.db =
      update_idea_info s.db (selectedIdea s).id (selectedIdea s).title
        (pyStrip raw) := by
    simp [dispatch, hmov, hlen, edit_idea_dialog, dialog_template_idea, ht,
      selectedIdea]
  refine ⟨hdisp, ?_⟩
  intro x hx hxid
  rw [hdisp] at hx
  obtain ⟨y, hy, hyx⟩ := List.mem_map.mp hx
  by_cases hyid : y.id = (selectedIdea s).id
  · rw [if_pos hyid] at hyx
    subst hyx
    exact ⟨rfl, rfl⟩
  · rw [if_neg hyid] at hyx
    subst hyx
    exact absurd hxid hyid

/-- C7 witness: the "Old"/"  trimmed  " scenario on a one-row store. -/
theorem edit_empty_title_falls_back_witness :
    (dispatch ⟨[⟨1, "Old", 0, "2026-01-01", "n", false⟩], "pos", 0, none, none, 0⟩
        5 (Ev.keyEdit (some "") (some "  trimmed  ") true)).1.db =
      update_idea_info [⟨1, "Old", 0, "2026-01-01", "n", false⟩]
        (selectedIdea ⟨[⟨1, "Old", 0, "2026-01-01", "n", false⟩], "pos", 0,
          none, none, 0⟩).id
        (selectedIdea ⟨[⟨1, "Old", 0, "2026-01-01", "n", false⟩], "pos", 0,
          none, none, 0⟩).title
        (pyStrip "  trimmed  ") ∧
    ∀ x ∈ (dispatch ⟨[⟨1, "Old", 0, "2026-01-01", "n", false⟩], "pos", 0, none,
        none, 0⟩ 5 (Ev.keyEdit (some "") (some "  trimmed  ") true)).1.db,
      x.id = (selectedIdea ⟨[⟨1, "Old", 0, "2026-01-01", "n", false⟩], "pos", 0,
          none, none, 0⟩).id →
        x.title = (selectedIdea ⟨[⟨1, "Old", 0, "2026-01-01", "n", false⟩],
          "pos", 0, none, none, 0⟩).title ∧
        x.notes = pyStrip "  trimmed  " :=
  edit_empty_title_falls_back
    ⟨[⟨1, "Old", 0, "2026-01-01", "n", false⟩], "pos", 0, none, none, 0⟩ 5
    "" "  trimmed  " rfl (by decide) (by decide)

/-- C8: cancelling at title entry, at notes entry, or at the confirmation
prompt makes the dialog return the cancellation signal, and the add and edit
handlers leave the whole state — store included — untouched. -/
theorem cancel_leaves_store_untouched (s : AppState) (v : Nat)
    (init_title init_notes : String) (tIn nIn : Option String) (conf : Bool)
    (today : String) (new_id : Nat) (hmov : s.moving_idea_index = none)
    (hcancel : tIn = none ∨ nIn = none ∨ conf = false) :
    dialog_template_idea init_title init_notes tIn nIn conf = none ∧
    dispatch s v (Ev.keyAdd tIn nIn conf today new_id) = (s, false) ∧
    dispatch s v (Ev.keyEdit tIn nIn conf) = (s, false) := by
  have hdlg : ∀ it inn : String, dialog_template_idea it inn tIn nIn conf = none := by
    intro it inn
    rcases hcancel with h | h | h
    · subst h
      rfl
    · subst h
      cases tIn <;> rfl
    · subst h
      cases tIn <;> cases nIn <;> simp [dialog_template_idea]
  refine ⟨hdlg init_title init_notes, ?_, ?_⟩
  · simp [dispatch, hmov, new_idea_dialog, hdlg]
  · by_cases hn : (0 : Int) < ((currentIdeas s).length : Int)
    · simp [dispatch, hmov, hn, edit_idea_dialog, hdlg]
    · simp [dispatch, hmov, hn]

/-- C8 witness: declining the confirmation prompt on a one-row store. -/
theorem cancel_leaves_store_untouched_witness :
    dialog_template_idea "Old" "n" (some "T") (some "N") false = none ∧
    dispatch ⟨dbTwo, "pos", 0, none, none, 0⟩ 5
        (Ev.keyAdd (some "T") (some "N") false "2026-10-12" 9) =
      (⟨dbTwo, "pos", 0, none, none, 0⟩, false) ∧
    dispatch ⟨dbTwo, "pos", 0, none, none, 0⟩ 5
        (Ev.keyEdit (some "T") (some "N") false) =
      (⟨dbTwo, "pos", 0, none, none, 0⟩, false) :=
  cancel_leaves_store_untouched ⟨dbTwo, "pos", 0, none, none, 0⟩ 5 "Old" "n"
    (some "T") (some "N") false "2026-10-12" 9 rfl (Or.inr (Or.inr rfl))
